import Mathlib

/-!
Verification of the PolarFlux localization audit script
(`Scripts/audit_i18n.py`) against its specification.

Shallow embedding conventions:
* A file's text is modelled as `List (List Char)`: the list of its lines,
  each line without its trailing newline (the script reads with
  `readlines()`; the regexes involved treat the trailing newline as
  optional whitespace / end-of-line, so matching the newline-free line is
  equivalent).
* Python `str` values (keys, values, language tags) are `List Char`.
* Python whitespace (`\s`, `str.strip`) is modelled over the six ASCII
  whitespace characters; `str.isdigit` and the regex class `[0-9]` over
  the ASCII digits.
* A file that does not exist on disk is `none : Option (List (List Char))`.
* Python `sorted` on strings (lexicographic by code point) is modelled by
  `List.insertionSort (· ≤ ·)` over `List Char`, which produces the same
  (unique) sorted permutation.
* The iteration order of the Python set `common_keys` is unspecified; the
  model takes it as an explicit parameter `ord` applied to the canonical
  enumeration of the common keys, constrained where needed to be a
  permutation.
-/

/-- ASCII whitespace, the characters matched by Python `\s` / stripped by
`str.strip` on the ASCII range. -/
def isPySpace (c : Char) : Bool :=
  c = ' ' || c = '\t' || c = '\n' || c = '\r' || c = '\x0b' || c = '\x0c'

/-- Python `str.strip()`: drop leading and trailing whitespace. -/
def pyStrip (s : List Char) : List Char :=
  ((s.dropWhile isPySpace).reverse.dropWhile isPySpace).reverse

/-- Python `str.isdigit()` restricted to ASCII: nonempty and all digits. -/
def pyIsDigit (s : List Char) : Bool :=
  !s.isEmpty && s.all Char.isDigit

/-- Python substring test `needle in hay`. -/
def strContains : List Char → List Char → Bool
  | hay, needle =>
    if List.isPrefixOf needle hay then true
    else
      match hay with
      | [] => false
      | _ :: t => strContains t needle

/-- The comment regex `^\s*(/\*|//|\*)` applied to the stripped line:
the stripped line starts with one of the three comment openers. -/
def isComment (s : List Char) : Bool :=
  List.isPrefixOf ['/', '*'] s || List.isPrefixOf ['/', '/'] s ||
    List.isPrefixOf ['*'] s

/-- Scanner for the quoted-body regex fragment `(?:[^"\\]|\\.)*"`:
consumes escaped or plain characters up to and including an unescaped
closing quote, returning the raw body (escapes kept verbatim, as the
Python capture group does) and the remainder after the closing quote.
The alternation is deterministic: at `\` only `\\.` can apply, at `"`
neither can, so no backtracking arises. -/
def scanQuoted : List Char → Option (List Char × List Char)
  | [] => none
  | '"' :: rest => some ([], rest)
  | '\\' :: c :: rest =>
    match scanQuoted rest with
    | some (s, r) => some ('\\' :: c :: s, r)
    | none => none
  | c :: rest =>
    match scanQuoted rest with
    | some (s, r) => some (c :: s, r)
    | none => none

/-- The data-line regex
`^\s*"((?:[^"\\]|\\.)+)"\s*=\s*"((?:[^"\\]|\\.)*)"\s*;\s*(//.*)?$`
of `LocFile.parse`, as a deterministic scanner over the newline-free
line. Returns the captured (raw) key and value on a match. The key body
must be nonempty (`+`); the value body may be empty (`*`); after the
semicolon only whitespace and an optional `//...` comment may follow. -/
def matchEntry (line : List Char) : Option (List Char × List Char) :=
  match line.dropWhile isPySpace with
  | '"' :: r1 =>
    match scanQuoted r1 with
    | some ([], _) => none
    | some (key, r2) =>
      match r2.dropWhile isPySpace with
      | '=' :: r3 =>
        match r3.dropWhile isPySpace with
        | '"' :: r4 =>
          match scanQuoted r4 with
          | some (v, r5) =>
            match r5.dropWhile isPySpace with
            | ';' :: r6 =>
              match r6.dropWhile isPySpace with
              | [] => some (key, v)
              | '/' :: '/' :: _ => some (key, v)
              | _ => none
            | _ => none
          | none => none
        | _ => none
      | _ => none
    | none => none
  | _ => none

/-- Parse errors recorded by `LocFile.parse` (the Python code stores
formatted strings; the model keeps the structured content). -/
inductive ParseError
  | fileNotFound
  | duplicateKey (lineno : Nat) (key : List Char)
  | malformed (lineno : Nat) (strippedLine : List Char)
deriving DecidableEq, Repr

/-- The state built by `LocFile.parse`: key → value map (`kv_map`),
key → line-number map (`line_map`), both as insertion-ordered
association lists with unique keys, plus the collected errors. -/
structure LocFile where
  kv : List (List Char × List Char)
  lineMap : List (List Char × Nat)
  errors : List ParseError
deriving DecidableEq, Repr

/-- One iteration of the parse loop of `LocFile.parse` on the line with
1-based number `lineno`: skip blank lines (`^\s*$` on the raw line) and
comment lines (comment regex on the stripped line); on a regex match
record the key unless already present, in which case append a
duplicate-key error; otherwise append a malformed-syntax error when the
line contains both a `"` and a `=`, and ignore the line when not. -/
def parseStep (st : LocFile) (lineno : Nat) (line : List Char) : LocFile :=
  if line.all isPySpace then st
  else if isComment (pyStrip line) then st
  else
    match matchEntry line with
    | some (key, v) =>
      match List.lookup key st.kv with
      | some _ => ⟨st.kv, st.lineMap, st.errors ++ [ParseError.duplicateKey lineno key]⟩
      | none => ⟨st.kv ++ [(key, v)], st.lineMap ++ [(key, lineno)], st.errors⟩
    | none =>
      if line.contains '"' && line.contains '=' then
        ⟨st.kv, st.lineMap, st.errors ++ [ParseError.malformed lineno (pyStrip line)]⟩
      else st

/-- The parse loop from a given state and 1-based line number. -/
def parseAux : LocFile → Nat → List (List Char) → LocFile
  | st, _, [] => st
  | st, n, l :: ls => parseAux (parseStep st n l) (n + 1) ls

/-- `LocFile.parse` on the lines of an existing file: fold the loop from
the empty state, numbering lines from 1. -/
def parseLines (lines : List (List Char)) : LocFile :=
  parseAux ⟨[], [], []⟩ 1 lines

/-- `LocFile` construction: a missing file records the single error
`File not found.` and no entries; an existing file is parsed. -/
def parseFile : Option (List (List Char)) → LocFile
  | none => ⟨[], [], [ParseError.fileNotFound]⟩
  | some lines => parseLines lines

/-- Format-specifier characters `[d@fs]` of the placeholder regex. -/
def isSpecChar (c : Char) : Bool :=
  c = 'd' || c = '@' || c = 'f' || c = 's'

/-- Matching of `[0-9]*\.?[0-9]*[d@fs]` at the position just after a `%`.
Greedy matching with backtracking reduces to: take the maximal digit
run; if a `.` follows, take it and the next maximal digit run; then the
next character must be a specifier (backtracking into the digit runs
can never succeed, since a digit is not a specifier and `.` must be
consumed by `\.?` if present). Returns the whole matched token
(including the `%`) and the rest. -/
def matchAfterPercent (s : List Char) : Option (List Char × List Char) :=
  match s.dropWhile Char.isDigit with
  | [] => none
  | e :: r =>
    if e = '.' then
      match r.dropWhile Char.isDigit with
      | [] => none
      | e2 :: r2 =>
        if isSpecChar e2 then
          some ('%' :: s.takeWhile Char.isDigit ++ '.' :: r.takeWhile Char.isDigit ++ [e2], r2)
        else none
    else if isSpecChar e then some ('%' :: s.takeWhile Char.isDigit ++ [e], r)
    else none

/-- Scan loop of `re.findall`: at each `%` try the tail match; on success
emit the token and resume after it, otherwise advance one character.
The `fuel` argument only makes the recursion structural; each step
consumes at least one character, so starting it at the input length
never exhausts it (any leftover input at fuel 0 has length ≤ 1 and can
hold no token, as a token needs at least two characters). -/
def findTokens : Nat → List Char → List (List Char)
  | 0, _ => []
  | _, [] => []
  | fuel + 1, c :: rest =>
    if c = '%' then
      match matchAfterPercent rest with
      | some (tok, r) => tok :: findTokens fuel r
      | none => findTokens fuel rest
    else findTokens fuel rest

/-- `get_placeholders`: `re.findall` of `%[0-9]*\.?[0-9]*[d@fs]` — scan
left to right over the text, collecting non-overlapping matches. -/
def getPlaceholders (s : List Char) : List (List Char) :=
  findTokens s.length s

/-- Python `sorted` on a list of strings: the unique permutation sorted
in the lexicographic (code-point) order. -/
def pysorted (l : List (List Char)) : List (List Char) :=
  List.insertionSort (fun a b => a ≤ b) l

/-- The token-script ("CJK") language tags of the untranslated-value
heuristic: `['zh-Hans', 'zh-Hant', 'ja', 'ko']`. -/
def cjkLangs : List (List Char) :=
  ["zh-Hans".data, "zh-Hant".data, "ja".data, "ko".data]

/-- The exemption list of the untranslated-value heuristic:
`["PolarFlux", "CPU", "FPS", "Metal"]`. -/
def safeWords : List (List Char) :=
  ["PolarFlux".data, "CPU".data, "FPS".data, "Metal".data]

/-- The console output of the audit, one constructor per kind of line the
script prints (colour codes and fixed texts elided, variable content
kept). -/
inductive Ev
  | procHeader (lang : List Char)
  | parseErr (lang : List Char) (e : ParseError)
  | missingHdr (lang : List Char) (n : Nat)
  | missingKey (k : List Char)
  | extraHdr (lang : List Char) (n : Nat)
  | extraKey (k : List Char)
  | phMismatch (lang k mval tval : List Char)
  | untransWarn (lang k tval : List Char)
deriving DecidableEq, Repr

/-- The keys of a parsed file, in insertion order (`kv_map.keys()`). -/
def keysOf (f : LocFile) : List (List Char) :=
  f.kv.map Prod.fst

/-- Step A of the `for k in common_keys` loop body, on the two values
`m_val` and `t_val`: the placeholder check — a counted critical error
(with both values shown) exactly when the sorted token lists differ. -/
def phEvBody (lang k mval tval : List Char) : List Ev × Nat :=
  if pysorted (getPlaceholders mval) = pysorted (getPlaceholders tval) then
    ([], 0)
  else ([Ev.phMismatch lang k mval tval], 1)

/-- Step A applied to the values of key `k` in the two files. -/
def phEventsOf (master t : LocFile) (lang k : List Char) : List Ev × Nat :=
  phEvBody lang k ((List.lookup k master.kv).getD [])
    ((List.lookup k t.kv).getD [])

/-- Step B of the loop body, on the two values: the untranslated-content
heuristic — an uncounted warning for a long non-numeric base value
identical in the target, for a token-script language, outside the
exemption list, with no `Copyright`/`LICENSE` in the key. -/
def utEvBody (lang k mval tval : List Char) : List Ev :=
  if mval.length > 4 && !pyIsDigit mval then
    if mval = tval then
      if cjkLangs.contains lang && !(safeWords.contains mval) then
        if !(strContains k "Copyright".data) &&
            !(strContains k "LICENSE".data) then
          [Ev.untransWarn lang k tval]
        else []
      else []
    else []
  else []

/-- Step B applied to the values of key `k` in the two files. -/
def utEventsOf (master t : LocFile) (lang k : List Char) : List Ev :=
  utEvBody lang k ((List.lookup k master.kv).getD [])
    ((List.lookup k t.kv).getD [])

/-- Body of the `for k in common_keys` loop for one key: the placeholder
check followed by the untranslated-content heuristic. Returns the
printed lines and the number of issues added. -/
def perKey (master t : LocFile) (lang k : List Char) : List Ev × Nat :=
  ((phEventsOf master t lang k).1 ++ utEventsOf master t lang k,
    (phEventsOf master t lang k).2)

/-- The per-target body of the main loop of `run_audit`: report and skip
on any parse error (adding every error to the issue count); otherwise
report sorted missing keys (counted) and sorted extra keys (uncounted),
then run the per-key checks over the common keys in the iteration order
`ord` of the Python set `common_keys`. -/
def auditTarget (master : LocFile) (lang : List Char) (t : LocFile)
    (ord : List (List Char) → List (List Char)) : List Ev × Nat :=
  if t.errors.isEmpty then
    let mks := keysOf master
    let tks := keysOf t
    let missing := mks.filter (fun k => !(tks.contains k))
    let extras := tks.filter (fun k => !(mks.contains k))
    let common := mks.filter (fun k => tks.contains k)
    let missEv :=
      if missing.isEmpty then []
      else Ev.missingHdr lang missing.length :: (pysorted missing).map Ev.missingKey
    let extraEv :=
      if extras.isEmpty then []
      else Ev.extraHdr lang extras.length :: (pysorted extras).map Ev.extraKey
    let keyResults := (ord common).map (fun k => perKey master t lang k)
    (Ev.procHeader lang :: missEv ++ extraEv ++ (keyResults.map Prod.fst).flatten,
      missing.length + (keyResults.map Prod.snd).sum)
  else
    (Ev.procHeader lang :: t.errors.map (Ev.parseErr lang), t.errors.length)

/-- The input of one audit run: the base file's lines (when the file
exists) and, for every non-base `<tag>.lproj` directory under
`Resources`, the lines of its `Localizable.strings` (when that file
exists). -/
structure AuditInput where
  base : Option (List (List Char))
  targets : List (List Char × Option (List (List Char)))
deriving DecidableEq, Repr

/-- Ordering of the target list: `lproj_dirs.sort()` sorts the directory
names, i.e. the strings `<tag>.lproj`. -/
def targetLe (a b : List Char × Option (List (List Char))) : Prop :=
  a.1 ++ ".lproj".data ≤ b.1 ++ ".lproj".data

instance : DecidableRel targetLe := fun x y =>
  inferInstanceAs (Decidable (x.1 ++ ".lproj".data ≤ y.1 ++ ".lproj".data))

instance : IsTotal (List Char × Option (List (List Char))) targetLe :=
  ⟨fun a b => le_total (a.1 ++ ".lproj".data) (b.1 ++ ".lproj".data)⟩

instance : IsTrans (List Char × Option (List (List Char))) targetLe :=
  ⟨fun _ _ _ hab hbc => le_trans hab hbc⟩

/-- The targets in processing order (sorted directory names). -/
def sortTargets (ts : List (List Char × Option (List (List Char)))) :
    List (List Char × Option (List (List Char))) :=
  List.insertionSort targetLe ts

/-- Result of a run of `run_audit`: an abort via `sys.exit(1)` before the
target loop (missing base file, or base file with parse errors), or a
completed run with its report and global issue count. -/
inductive Outcome
  | abortMissingBase
  | abortBaseErrors (errs : List ParseError)
  | completed (report : List Ev) (issues : Nat)
deriving DecidableEq, Repr

/-- `run_audit`: check the base file exists, parse it, abort on any base
error; otherwise process every target in sorted order, concatenating the
reports and summing the issue counts. -/
def runAudit (inp : AuditInput)
    (ord : List (List Char) → List (List Char)) : Outcome :=
  match inp.base with
  | none => Outcome.abortMissingBase
  | some bl =>
    let master := parseLines bl
    if master.errors.isEmpty then
      let results := (sortTargets inp.targets).map
        (fun p => auditTarget master p.1 (parseFile p.2) ord)
      Outcome.completed ((results.map Prod.fst).flatten)
        ((results.map Prod.snd).sum)
    else Outcome.abortBaseErrors master.errors

/-- The process exit code of a run: 1 on an abort, else 0 exactly when
the global issue count is zero. -/
def exitCode : Outcome → Nat
  | Outcome.completed _ n => if n = 0 then 0 else 1
  | _ => 1

/-- Whether the run aborted before the target loop. -/
def aborted : Outcome → Bool
  | Outcome.completed _ _ => false
  | _ => true

/-- A valid iteration order for the Python set `common_keys`: any
function that permutes the canonical enumeration it is given. -/
def ValidOrd (ord : List (List Char) → List (List Char)) : Prop :=
  ∀ l, List.Perm (ord l) l

/-- Identity iteration order, one concrete valid order for witnesses. -/
def ordId : List (List Char) → List (List Char) := fun l => l

/-- Reversal, a second valid iteration order. -/
def ordRev : List (List Char) → List (List Char) := fun l => l.reverse


/-- Classification of a line as a data entry: `matchEntry` after the
blank-line and comment-line skips of the parse loop. -/
def lineEntry (line : List Char) : Option (List Char × List Char) :=
  if line.all isPySpace then none
  else if isComment (pyStrip line) then none
  else matchEntry line

/-- The well-formed occurrences of key `k` in a list of lines, as
(line number, value) pairs, the first line carrying number `n`. -/
def entriesFor (k : List Char) : Nat → List (List Char) → List (Nat × List Char)
  | _, [] => []
  | n, l :: ls =>
    match lineEntry l with
    | some (k2, v) =>
      if k2 = k then (n, v) :: entriesFor k (n + 1) ls else entriesFor k (n + 1) ls
    | none => entriesFor k (n + 1) ls

/-- Recognizer for a duplicate-key error concerning key `k`. -/
def isDupFor (k : List Char) : ParseError → Bool
  | ParseError.duplicateKey _ k2 => k2 == k
  | _ => false

/-- Number of placeholder-mismatch error lines for language `lang` and
key `k` in a report. -/
def countPh (lang k : List Char) (evs : List Ev) : Nat :=
  (evs.filter fun e =>
    match e with
    | Ev.phMismatch l2 k2 _ _ => l2 == lang && k2 == k
    | _ => false).length

/-- Number of untranslated-value warning lines for language `lang` and
key `k` in a report. -/
def countUt (lang k : List Char) (evs : List Ev) : Nat :=
  (evs.filter fun e =>
    match e with
    | Ev.untransWarn l2 k2 _ => l2 == lang && k2 == k
    | _ => false).length

/-- Number of missing-key lines in a report. -/
def countMissingEv (evs : List Ev) : Nat :=
  (evs.filter fun e =>
    match e with
    | Ev.missingKey _ => true
    | _ => false).length

/-- Number of placeholder-mismatch error lines in a report. -/
def countPhEv (evs : List Ev) : Nat :=
  (evs.filter fun e =>
    match e with
    | Ev.phMismatch _ _ _ _ => true
    | _ => false).length

/-- Number of reported parse errors (duplicate key, malformed line, or
file not found) in a report. -/
def countParseErrEv (evs : List Ev) : Nat :=
  (evs.filter fun e =>
    match e with
    | Ev.parseErr _ _ => true
    | _ => false).length

/-- Number of extra-key lines in a report. -/
def countExtraEv (evs : List Ev) : Nat :=
  (evs.filter fun e =>
    match e with
    | Ev.extraKey _ => true
    | _ => false).length

/-- Number of untranslated-value warning lines in a report. -/
def countUntransEv (evs : List Ev) : Nat :=
  (evs.filter fun e =>
    match e with
    | Ev.untransWarn _ _ _ => true
    | _ => false).length

/-- The language tags in the order the run processes them. -/
def processedLangs (inp : AuditInput) : List (List Char) :=
  (sortTargets inp.targets).map Prod.fst

/-- Concrete data: a clean two-entry base file. -/
def exBase : List (List Char) :=
  ["\"Greeting\" = \"Hello %@\";".data, "\"Farewell\" = \"Bye\";".data]

/-- Concrete data: a target file whose second line is malformed (it
contains a quote and an equals sign but fails the entry pattern). -/
def exMalTarget : List (List Char) :=
  ["\"Greeting\" = \"Bonjour %@\";".data, "\"B\" = junk".data]

/-- Concrete input for the issue-breakdown counterexample: a clean base
and one target whose only defect is one malformed line. -/
def exC2inp : AuditInput :=
  AuditInput.mk (some exBase)
    [("fr".data, some ["\"Greeting\" = \"Bonjour %@\";".data,
                       "\"Farewell\" = \"Adieu\";".data,
                       "\"B\" = junk".data])]

/-- Concrete data: base file with two placeholder-bearing entries. -/
def exC9base : List (List Char) :=
  ["\"K1\" = \"a %d\";".data, "\"K2\" = \"b %s\";".data]

/-- Concrete data: a translation dropping both placeholders. -/
def exC9target : List (List Char) :=
  ["\"K1\" = \"x\";".data, "\"K2\" = \"y\";".data]

/-- Concrete input for the determinism counterexample: two target
languages, one a strict prefix of the other, both with two
placeholder-mismatching keys. -/
def exC9inp : AuditInput :=
  AuditInput.mk (some exC9base)
    [("de".data, some exC9target), ("de-AT".data, some exC9target)]

/-- Concrete input whose only target language directory lacks its
resource file. -/
def exC10inp : AuditInput :=
  AuditInput.mk (some exBase) [("de".data, none)]

/-- Concrete input with no base file. -/
def exNoBase : AuditInput := AuditInput.mk none []

theorem length_dropWhile_le (p : Char → Bool) (l : List Char) :
    (l.dropWhile p).length ≤ l.length := by
  induction l with
  | nil => simp [List.dropWhile]
  | cons a t ih =>
    by_cases h : p a
    · simp [List.dropWhile, h]; omega
    · simp [List.dropWhile, h]

/-- The fuel bound of `findTokens` is adequate: a successful tail match
consumes at least one character. -/
theorem matchAfterPercent_shrinks {s tok r : List Char}
    (h : matchAfterPercent s = some (tok, r)) : r.length < s.length := by
  unfold matchAfterPercent at h
  rcases hd : s.dropWhile Char.isDigit with _ | ⟨e, r4⟩ <;> rw [hd] at h
  · exact absurd h (by simp)
  · dsimp only at h
    have h1 : r4.length < s.length := by
      have := length_dropWhile_le Char.isDigit s
      rw [hd] at this; simp at this; omega
    by_cases he : e = '.'
    · rw [if_pos he] at h
      rcases hd2 : r4.dropWhile Char.isDigit with _ | ⟨e2, r5⟩ <;> rw [hd2] at h
      · exact absurd h (by simp)
      · dsimp only at h
        have h2 : r5.length < r4.length := by
          have := length_dropWhile_le Char.isDigit r4
          rw [hd2] at this; simp at this; omega
        by_cases hs : isSpecChar e2 = true
        · rw [if_pos hs] at h
          have hr : r = r5 := by
            have := (Option.some.injEq _ _).mp h
            exact (congrArg Prod.snd this).symm
          subst hr; omega
        · rw [if_neg hs] at h; exact absurd h (by simp)
    · rw [if_neg he] at h
      by_cases hs : isSpecChar e = true
      · rw [if_pos hs] at h
        have hr : r = r4 := by
          have := (Option.some.injEq _ _).mp h
          exact (congrArg Prod.snd this).symm
        subst hr; omega
      · rw [if_neg hs] at h; exact absurd h (by simp)

/-- Concrete data: a file whose single line is malformed. -/
def exBadLines : List (List Char) := ["\"B\" = junk".data]

/-- The report of the run on `exC2inp`: a processing header and one
malformed-syntax error. -/
def exC2rep : List Ev :=
  [Ev.procHeader "fr".data,
   Ev.parseErr "fr".data (ParseError.malformed 3 ("\"B\" = junk".data))]

theorem ordId_valid : ValidOrd ordId := fun _ => List.Perm.refl _

theorem ordRev_valid : ValidOrd ordRev := fun l => List.reverse_perm l

theorem runAudit_completed (inp : AuditInput)
    (ord : List (List Char) → List (List Char)) (bl : List (List Char))
    (hb : inp.base = some bl) (he : (parseLines bl).errors = []) :
    runAudit inp ord = Outcome.completed
      (((sortTargets inp.targets).map
        (fun p => (auditTarget (parseLines bl) p.1 (parseFile p.2) ord).1)).flatten)
      (((sortTargets inp.targets).map
        (fun p => (auditTarget (parseLines bl) p.1 (parseFile p.2) ord).2)).sum) := by
  unfold runAudit
  rw [hb]
  simp only [he, List.isEmpty_nil, if_true, List.map_map, Function.comp_def]

theorem runAudit_aborts (inp : AuditInput)
    (ord : List (List Char) → List (List Char)) :
    aborted (runAudit inp ord) = true ↔
      (inp.base = none ∨
        ∃ bl, inp.base = some bl ∧ (parseLines bl).errors ≠ []) := by
  unfold runAudit
  cases hb : inp.base with
  | none => simp [aborted]
  | some bl =>
    by_cases he : (parseLines bl).errors = []
    · simp [he, aborted]
    · simp [he, aborted, List.isEmpty_iff]

/-- Claim C1: the process exits with success (exit code 0) if and only if
the base file was found and parsed with zero errors and the global count
of counted issues over all target files is zero; a missing or malformed
base file, or at least one counted issue, yields a non-zero exit code. -/
theorem claim_C1 (inp : AuditInput)
    (ord : List (List Char) → List (List Char)) :
    exitCode (runAudit inp ord) = 0 ↔
      (∃ bl, inp.base = some bl ∧ (parseLines bl).errors = []) ∧
      (∃ rep, runAudit inp ord = Outcome.completed rep 0) := by
  cases hb : inp.base with
  | none => simp [runAudit, hb, exitCode]
  | some bl =>
    by_cases he : (parseLines bl).errors = []
    · rw [runAudit_completed inp ord bl hb he]
      simp [exitCode, hb, he]
    · simp [runAudit, hb, he, exitCode, List.isEmpty_iff]

/-- Claim C5: each line is classified exactly one way by the parse loop —
blank and comment lines are skipped with no error; a line matching the
entry pattern records the key (or a duplicate-key error when the key is
already present); a non-matching line with both a quote and an equals
sign appends a malformed-syntax error with its line number; any other
non-matching line is silently ignored. Lines are numbered from 1. -/
theorem claim_C5 (st : LocFile) (n : Nat) (line : List Char) :
    ((line.all isPySpace = true ∨ isComment (pyStrip line) = true) →
        parseStep st n line = st) ∧
    (line.all isPySpace = false → isComment (pyStrip line) = false →
      ∀ k v, matchEntry line = some (k, v) →
        parseStep st n line =
          (match List.lookup k st.kv with
           | some _ =>
             LocFile.mk st.kv st.lineMap
               (st.errors ++ [ParseError.duplicateKey n k])
           | none =>
             LocFile.mk (st.kv ++ [(k, v)]) (st.lineMap ++ [(k, n)])
               st.errors)) ∧
    (line.all isPySpace = false → isComment (pyStrip line) = false →
      matchEntry line = none →
      (line.contains '"' && line.contains '=') = true →
        parseStep st n line =
          LocFile.mk st.kv st.lineMap
            (st.errors ++ [ParseError.malformed n (pyStrip line)])) ∧
    (line.all isPySpace = false → isComment (pyStrip line) = false →
      matchEntry line = none →
      (line.contains '"' && line.contains '=') = false →
        parseStep st n line = st) ∧
    parseLines = parseAux (LocFile.mk [] [] []) 1 := by
  refine ⟨?_, ?_, ?_, ?_, rfl⟩
  · rintro (h | h) <;> simp [parseStep, h]
  · intro h1 h2 k v hm
    simp [parseStep, h1, h2, hm]
  · intro h1 h2 hm hq
    simp only [parseStep, h1, h2, hm, hq]
    simp
  · intro h1 h2 hm hq
    simp only [parseStep, h1, h2, hm, hq]
    simp

/-- Witness for C5 at a concrete malformed line. -/
theorem claim_C5_witness :
    parseStep (LocFile.mk [] [] []) 1 ("\"B\" = junk".data) =
      LocFile.mk [] []
        [ParseError.malformed 1 (pyStrip ("\"B\" = junk".data))] := by
  have h := (claim_C5 (LocFile.mk [] [] []) 1 ("\"B\" = junk".data)).2.2.1
  exact h (by decide) (by decide) (by decide) (by decide)

/-- Claim C6: a target file with at least one parse error has all of its
errors reported, undergoes no key comparison (its report consists of the
processing header and its error lines only, and it contributes exactly
its error count), and the run still processes every target in the
sorted list. -/
theorem claim_C6 (master : LocFile) (lang : List Char) (t : LocFile)
    (ord : List (List Char) → List (List Char)) (h : t.errors ≠ []) :
    auditTarget master lang t ord =
      (Ev.procHeader lang :: t.errors.map (Ev.parseErr lang),
        t.errors.length) ∧
    (∀ inp bl, inp.base = some bl → (parseLines bl).errors = [] →
      runAudit inp ord = Outcome.completed
        (((sortTargets inp.targets).map
          (fun p => (auditTarget (parseLines bl) p.1 (parseFile p.2) ord).1)).flatten)
        (((sortTargets inp.targets).map
          (fun p => (auditTarget (parseLines bl) p.1 (parseFile p.2) ord).2)).sum)) := by
  constructor
  · simp [auditTarget, List.isEmpty_iff, h]
  · intro inp bl hb he
    exact runAudit_completed inp ord bl hb he

/-- Witness for C6 at a concrete broken target. -/
theorem claim_C6_witness :
    auditTarget (parseLines exBase) "fr".data (parseLines exBadLines) ordId =
      ([Ev.procHeader "fr".data,
        Ev.parseErr "fr".data (ParseError.malformed 1 ("\"B\" = junk".data))],
        1) := by
  have h := (claim_C6 (parseLines exBase) "fr".data (parseLines exBadLines)
    ordId (by decide)).1
  rw [h]; decide

/-- Claim C8: the run aborts (with exit code 1, and without its result
depending on the targets in any way) exactly when the base file is
absent or its parse produced at least one error; no other condition
aborts the run. -/
theorem claim_C8 (inp : AuditInput)
    (ord : List (List Char) → List (List Char)) :
    (aborted (runAudit inp ord) = true ↔
      inp.base = none ∨
        ∃ bl, inp.base = some bl ∧ (parseLines bl).errors ≠ []) ∧
    (aborted (runAudit inp ord) = true →
      exitCode (runAudit inp ord) = 1 ∧
      ∀ ts, runAudit (AuditInput.mk inp.base ts) ord = runAudit inp ord) := by
  refine ⟨runAudit_aborts inp ord, fun h => ⟨?_, ?_⟩⟩
  · cases ho : runAudit inp ord with
    | completed rep m => rw [ho] at h; simp [aborted] at h
    | abortMissingBase => simp [exitCode]
    | abortBaseErrors es => simp [exitCode]
  · intro ts
    rcases (runAudit_aborts inp ord).mp h with hb | ⟨bl, hb, he⟩
    · simp [runAudit, hb]
    · simp [runAudit, hb, he, List.isEmpty_iff]

/-- Witness for C8 at an input with no base file. -/
theorem claim_C8_witness :
    exitCode (runAudit exNoBase ordId) = 1 ∧
    runAudit (AuditInput.mk exNoBase.base
      [("de".data, none)]) ordId = runAudit exNoBase ordId := by
  have h := (claim_C8 exNoBase ordId).2 (by decide)
  exact ⟨h.1, h.2 [("de".data, none)]⟩

/-- Claim C10: a missing target resource file yields the single error
`File not found.`, contributing exactly 1 to the issue count, with no
comparison lines for that language; and with a clean base file the run
is never aborted — it completes over the whole sorted target list. -/
theorem claim_C10 :
    (∀ (master : LocFile) (lang : List Char)
        (ord : List (List Char) → List (List Char)),
      parseFile none = LocFile.mk [] [] [ParseError.fileNotFound] ∧
      auditTarget master lang (parseFile none) ord =
        ([Ev.procHeader lang, Ev.parseErr lang ParseError.fileNotFound], 1)) ∧
    (∀ inp (ord : List (List Char) → List (List Char)) bl,
      inp.base = some bl → (parseLines bl).errors = [] →
      aborted (runAudit inp ord) = false ∧
      runAudit inp ord = Outcome.completed
        (((sortTargets inp.targets).map
          (fun p => (auditTarget (parseLines bl) p.1 (parseFile p.2) ord).1)).flatten)
        (((sortTargets inp.targets).map
          (fun p => (auditTarget (parseLines bl) p.1 (parseFile p.2) ord).2)).sum)) := by
  refine ⟨fun master lang ord => ⟨rfl, rfl⟩, fun inp ord bl hb he => ⟨?_, ?_⟩⟩
  · rw [runAudit_completed inp ord bl hb he]; rfl
  · exact runAudit_completed inp ord bl hb he

/-- Witness for C10 at a concrete input whose target file is absent. -/
theorem claim_C10_witness :
    auditTarget (parseLines exBase) "de".data (parseFile none) ordId =
      ([Ev.procHeader "de".data,
        Ev.parseErr "de".data ParseError.fileNotFound], 1) ∧
    aborted (runAudit exC10inp ordId) = false :=
  ⟨(claim_C10.1 (parseLines exBase) "de".data ordId).2,
   (claim_C10.2 exC10inp ordId exBase rfl (by decide)).1⟩

theorem lookup_none_iff {α : Type} (k : List Char)
    (m : List (List Char × α)) :
    List.lookup k m = none ↔ k ∉ m.map Prod.fst := by
  induction m with
  | nil => simp
  | cons a m ih =>
    cases a with
    | mk k2 v =>
      by_cases hk : k = k2
      · subst hk
        have h1 : List.lookup k ((k, v) :: m) = some v := by simp [List.lookup]
        constructor
        · intro h0
          rw [h1] at h0
          exact Option.noConfusion h0
        · intro hmem
          exfalso
          exact hmem (by rw [List.map_cons]; exact List.mem_cons_self _ _)
      · rw [List.map_cons, List.mem_cons]
        have : List.lookup k ((k2, v) :: m) = List.lookup k m := by
          simp [List.lookup, beq_false_of_ne hk]
        rw [this, ih]
        constructor
        · intro h0 h2
          rcases h2 with h2 | h2
          · exact hk h2
          · exact h0 h2
        · intro h0 h2
          exact h0 (Or.inr h2)

theorem lookup_some_mem {α : Type} {k : List Char} {v : α}
    {m : List (List Char × α)} (h : List.lookup k m = some v) :
    k ∈ m.map Prod.fst := by
  by_contra hmem
  rw [← lookup_none_iff] at hmem
  rw [hmem] at h
  exact Option.noConfusion h

theorem parseStep_cases (st : LocFile) (n : Nat) (line : List Char) :
    ((parseStep st n line).kv = st.kv ∧
      (parseStep st n line).lineMap = st.lineMap) ∨
    (∃ k v, matchEntry line = some (k, v) ∧ List.lookup k st.kv = none ∧
      (parseStep st n line).kv = st.kv ++ [(k, v)] ∧
      (parseStep st n line).lineMap = st.lineMap ++ [(k, n)]) := by
  unfold parseStep
  split
  · exact Or.inl ⟨rfl, rfl⟩
  · split
    · exact Or.inl ⟨rfl, rfl⟩
    · split
      · next k v heq =>
        split
        · exact Or.inl ⟨rfl, rfl⟩
        · next hlk => exact Or.inr ⟨k, v, heq, hlk, rfl, rfl⟩
      · split
        · exact Or.inl ⟨rfl, rfl⟩
        · exact Or.inl ⟨rfl, rfl⟩

theorem parseAux_kv_nodup (ls : List (List Char)) :
    ∀ (st : LocFile) (n : Nat), (st.kv.map Prod.fst).Nodup →
      (((parseAux st n ls).kv).map Prod.fst).Nodup := by
  induction ls with
  | nil => intro st n h; exact h
  | cons l ls ih =>
    intro st n h
    apply ih
    rcases parseStep_cases st n l with ⟨hkv, _⟩ | ⟨k, v, _, hlk, hkv, _⟩
    · rw [hkv]; exact h
    · rw [hkv]
      rw [lookup_none_iff] at hlk
      simp [List.nodup_append, h, hlk]

theorem parse_kv_nodup (ls : List (List Char)) :
    (((parseLines ls).kv).map Prod.fst).Nodup :=
  parseAux_kv_nodup ls ⟨[], [], []⟩ 1 (by simp)

theorem pysorted_eq_iff (a b : List (List Char)) :
    pysorted a = pysorted b ↔
      (a : Multiset (List Char)) = (b : Multiset (List Char)) := by
  rw [Multiset.coe_eq_coe]
  haveI hat : IsTotal (List Char) (fun x y : List Char => x ≤ y) :=
    ⟨fun x y => le_total x y⟩
  haveI har : IsTrans (List Char) (fun x y : List Char => x ≤ y) :=
    ⟨fun _ _ _ h1 h2 => le_trans h1 h2⟩
  haveI has : IsAntisymm (List Char) (fun x y : List Char => x ≤ y) :=
    ⟨fun _ _ h1 h2 => le_antisymm h1 h2⟩
  have pa := List.perm_insertionSort (fun x y : List Char => x ≤ y) a
  have pb := List.perm_insertionSort (fun x y : List Char => x ≤ y) b
  unfold pysorted
  constructor
  · intro hs
    rw [← hs] at pb
    exact pa.symm.trans pb
  · intro hp
    exact @List.eq_of_perm_of_sorted _ (fun x y : List Char => x ≤ y) has _ _
      (pa.trans (hp.trans pb.symm))
      (List.sorted_insertionSort _ a) (List.sorted_insertionSort _ b)


theorem countPh_eq_countP (lang k : List Char) (evs : List Ev) :
    countPh lang k evs =
      evs.countP fun e =>
        match e with
        | Ev.phMismatch l2 k2 _ _ => l2 == lang && k2 == k
        | _ => false :=
  (List.countP_eq_length_filter _ _).symm

theorem countUt_eq_countP (lang k : List Char) (evs : List Ev) :
    countUt lang k evs =
      evs.countP fun e =>
        match e with
        | Ev.untransWarn l2 k2 _ => l2 == lang && k2 == k
        | _ => false :=
  (List.countP_eq_length_filter _ _).symm

theorem countPh_append (lang k : List Char) (l1 l2 : List Ev) :
    countPh lang k (l1 ++ l2) = countPh lang k l1 + countPh lang k l2 := by
  rw [countPh_eq_countP, countPh_eq_countP, countPh_eq_countP,
    List.countP_append]

theorem countUt_append (lang k : List Char) (l1 l2 : List Ev) :
    countUt lang k (l1 ++ l2) = countUt lang k l1 + countUt lang k l2 := by
  rw [countUt_eq_countP, countUt_eq_countP, countUt_eq_countP,
    List.countP_append]

theorem countPh_utBody (lang lang2 k k2 mval tval : List Char) :
    countPh lang k (utEvBody lang2 k2 mval tval) = 0 := by
  unfold utEvBody
  split
  · split
    · split
      · split
        · rfl
        · rfl
      · rfl
    · rfl
  · rfl

theorem countUt_phBody (lang lang2 k k2 mval tval : List Char) :
    countUt lang k (phEvBody lang2 k2 mval tval).1 = 0 := by
  unfold phEvBody
  split
  · rfl
  · rfl

theorem countPh_perKey (master t : LocFile) (lang k k2 : List Char) :
    countPh lang k (perKey master t lang k2).1 =
      if k2 = k then
        (if pysorted (getPlaceholders ((List.lookup k master.kv).getD [])) =
            pysorted (getPlaceholders ((List.lookup k t.kv).getD [])) then 0
          else 1)
      else 0 := by
  unfold perKey utEventsOf phEventsOf
  rw [countPh_append, countPh_utBody]
  by_cases hk2 : k2 = k
  · subst hk2
    unfold phEvBody
    split
    · next h => simp [h, countPh]
    · next h => simp [h, countPh]
  · rw [if_neg hk2]
    unfold phEvBody
    split
    · rfl
    · simp [countPh, beq_false_of_ne hk2]

theorem countUt_perKey (master t : LocFile) (lang k k2 : List Char) :
    countUt lang k (perKey master t lang k2).1 =
      if k2 = k then countUt lang k (utEventsOf master t lang k) else 0 := by
  unfold perKey utEventsOf phEventsOf
  rw [countUt_append, countUt_phBody]
  by_cases hk2 : k2 = k
  · subst hk2; simp
  · rw [if_neg hk2]
    unfold utEvBody
    split
    · split
      · split
        · split
          · simp [countUt, beq_false_of_ne hk2]
          · rfl
        · rfl
      · rfl
    · rfl

theorem countPh_loop (master t : LocFile) (lang k : List Char)
    (ks : List (List Char)) :
    countPh lang k ((ks.map (fun k2 => (perKey master t lang k2).1)).flatten) =
      ks.count k * countPh lang k (perKey master t lang k).1 := by
  induction ks with
  | nil => simp [countPh]
  | cons a ks ih =>
    rw [List.map_cons, List.flatten_cons, countPh_append, ih]
    by_cases ha : a = k
    · subst ha
      rw [List.count_cons_self]
      ring
    · rw [countPh_perKey, if_neg ha,
        List.count_cons_of_ne (fun h => ha h.symm)]
      omega

theorem countUt_loop (master t : LocFile) (lang k : List Char)
    (ks : List (List Char)) :
    countUt lang k ((ks.map (fun k2 => (perKey master t lang k2).1)).flatten) =
      ks.count k * countUt lang k (perKey master t lang k).1 := by
  induction ks with
  | nil => simp [countUt]
  | cons a ks ih =>
    rw [List.map_cons, List.flatten_cons, countUt_append, ih]
    by_cases ha : a = k
    · subst ha
      rw [List.count_cons_self]
      ring
    · rw [countUt_perKey, if_neg ha,
        List.count_cons_of_ne (fun h => ha h.symm)]
      omega

theorem countPh_cons_proc (lang k l2 : List Char) (evs : List Ev) :
    countPh lang k (Ev.procHeader l2 :: evs) = countPh lang k evs := by
  simp [countPh]

theorem countUt_cons_proc (lang k l2 : List Char) (evs : List Ev) :
    countUt lang k (Ev.procHeader l2 :: evs) = countUt lang k evs := by
  simp [countUt]

theorem countPh_ifMissing (lang k lang2 : List Char) (b : Bool) (n : Nat)
    (l : List (List Char)) :
    countPh lang k
      (if b then [] else Ev.missingHdr lang2 n :: l.map Ev.missingKey) = 0 := by
  cases b
  · rw [if_neg (by simp)]
    rw [countPh_eq_countP, List.countP_cons]
    have : (l.map Ev.missingKey).countP (fun e =>
        match e with
        | Ev.phMismatch l2 k2 _ _ => l2 == lang && k2 == k
        | _ => false) = 0 := by
      apply List.countP_eq_zero.mpr
      intro a ha
      rcases List.mem_map.mp ha with ⟨x, _, rfl⟩
      simp
    rw [this]
    simp
  · rw [if_pos rfl]; rfl

theorem countPh_ifExtra (lang k lang2 : List Char) (b : Bool) (n : Nat)
    (l : List (List Char)) :
    countPh lang k
      (if b then [] else Ev.extraHdr lang2 n :: l.map Ev.extraKey) = 0 := by
  cases b
  · rw [if_neg (by simp)]
    rw [countPh_eq_countP, List.countP_cons]
    have : (l.map Ev.extraKey).countP (fun e =>
        match e with
        | Ev.phMismatch l2 k2 _ _ => l2 == lang && k2 == k
        | _ => false) = 0 := by
      apply List.countP_eq_zero.mpr
      intro a ha
      rcases List.mem_map.mp ha with ⟨x, _, rfl⟩
      simp
    rw [this]
    simp
  · rw [if_pos rfl]; rfl

theorem countUt_ifMissing (lang k lang2 : List Char) (b : Bool) (n : Nat)
    (l : List (List Char)) :
    countUt lang k
      (if b then [] else Ev.missingHdr lang2 n :: l.map Ev.missingKey) = 0 := by
  cases b
  · rw [if_neg (by simp)]
    rw [countUt_eq_countP, List.countP_cons]
    have : (l.map Ev.missingKey).countP (fun e =>
        match e with
        | Ev.untransWarn l2 k2 _ => l2 == lang && k2 == k
        | _ => false) = 0 := by
      apply List.countP_eq_zero.mpr
      intro a ha
      rcases List.mem_map.mp ha with ⟨x, _, rfl⟩
      simp
    rw [this]
    simp
  · rw [if_pos rfl]; rfl

theorem countUt_ifExtra (lang k lang2 : List Char) (b : Bool) (n : Nat)
    (l : List (List Char)) :
    countUt lang k
      (if b then [] else Ev.extraHdr lang2 n :: l.map Ev.extraKey) = 0 := by
  cases b
  · rw [if_neg (by simp)]
    rw [countUt_eq_countP, List.countP_cons]
    have : (l.map Ev.extraKey).countP (fun e =>
        match e with
        | Ev.untransWarn l2 k2 _ => l2 == lang && k2 == k
        | _ => false) = 0 := by
      apply List.countP_eq_zero.mpr
      intro a ha
      rcases List.mem_map.mp ha with ⟨x, _, rfl⟩
      simp
    rw [this]
    simp
  · rw [if_pos rfl]; rfl

theorem countPh_auditTarget (master t : LocFile) (lang : List Char)
    (ord : List (List Char) → List (List Char)) (ht : t.errors = [])
    (k : List Char) :
    countPh lang k (auditTarget master lang t ord).1 =
      (ord ((keysOf master).filter fun k2 => (keysOf t).contains k2)).count k *
        countPh lang k (perKey master t lang k).1 := by
  simp only [auditTarget, ht, List.isEmpty_nil, if_true, List.map_map,
    Function.comp_def]
  rw [countPh_append, countPh_append, countPh_cons_proc, countPh_ifMissing,
    countPh_ifExtra, countPh_loop]
  simp

theorem countUt_auditTarget (master t : LocFile) (lang : List Char)
    (ord : List (List Char) → List (List Char)) (ht : t.errors = [])
    (k : List Char) :
    countUt lang k (auditTarget master lang t ord).1 =
      (ord ((keysOf master).filter fun k2 => (keysOf t).contains k2)).count k *
        countUt lang k (perKey master t lang k).1 := by
  simp only [auditTarget, ht, List.isEmpty_nil, if_true, List.map_map,
    Function.comp_def]
  rw [countUt_append, countUt_append, countUt_cons_proc, countUt_ifMissing,
    countUt_ifExtra, countUt_loop]
  simp

theorem countUt_utBody_self (lang k mval tval : List Char) :
    countUt lang k (utEvBody lang k mval tval) =
      if mval.length > 4 ∧ pyIsDigit mval = false ∧ mval = tval ∧
          cjkLangs.contains lang = true ∧ safeWords.contains mval = false ∧
          strContains k "Copyright".data = false ∧
          strContains k "LICENSE".data = false then 1 else 0 := by
  unfold utEvBody
  split
  · next h1 =>
    rw [Bool.and_eq_true] at h1
    obtain ⟨h1a, h1b⟩ := h1
    have c1 : mval.length > 4 := of_decide_eq_true h1a
    have c2 : pyIsDigit mval = false := Bool.not_eq_true' _ ▸ h1b
    split
    · next h2 =>
      split
      · next h3 =>
        rw [Bool.and_eq_true] at h3
        obtain ⟨h3a, h3b⟩ := h3
        have c5 : safeWords.contains mval = false := Bool.not_eq_true' _ ▸ h3b
        split
        · next h4 =>
          rw [Bool.and_eq_true] at h4
          obtain ⟨h4a, h4b⟩ := h4
          have c6 : strContains k "Copyright".data = false :=
            Bool.not_eq_true' _ ▸ h4a
          have c7 : strContains k "LICENSE".data = false :=
            Bool.not_eq_true' _ ▸ h4b
          rw [if_pos ⟨c1, c2, h2, h3a, c5, c6, c7⟩]
          simp [countUt]
        · next h4 =>
          rw [if_neg (fun hc => h4 (by
            rw [hc.2.2.2.2.2.1, hc.2.2.2.2.2.2]; rfl))]
          rfl
      · next h3 =>
        rw [if_neg (fun hc => h3 (by
          rw [hc.2.2.2.1, hc.2.2.2.2.1]; rfl))]
        rfl
    · next h2 =>
      rw [if_neg (fun hc => h2 hc.2.2.1)]
      rfl
  · next h1 =>
    rw [if_neg (fun hc => h1 (by
      rw [decide_eq_true hc.1, hc.2.1]; rfl))]
    rfl

theorem count_perm_eq (k : List Char) {l1 l2 : List (List Char)}
    (h : l1.Perm l2) : l1.count k = l2.count k := by
  unfold List.count
  exact h.countP_eq _

theorem count_one_of_nodup_mem (k : List Char) (l : List (List Char))
    (hnd : l.Nodup) (hmem : k ∈ l) : l.count k = 1 := by
  induction l with
  | nil => cases hmem
  | cons a l ih =>
    rcases List.mem_cons.mp hmem with h | h
    · subst h
      rw [List.count_cons_self]
      have hnin : k ∉ l := (List.nodup_cons.mp hnd).1
      rw [List.count_eq_zero.mpr hnin]
    · have hna : a ≠ k := by
        rintro rfl
        exact (List.nodup_cons.mp hnd).1 h
      rw [List.count_cons_of_ne (fun hh => hna hh.symm) l]
      exact ih (List.nodup_cons.mp hnd).2 h

/-- Claim C3: for a key common to the base file and an error-free target
file, the audit emits exactly one counted placeholder-mismatch error for
that key if and only if the placeholder-token lists of the two values
differ as multisets (the code compares them after sorting, so order is
irrelevant); equal multisets yield no error. The same quantity is added
to the issue count. -/
theorem claim_C3 (bl : List (List Char)) (t : LocFile)
    (lang k mv tv : List Char)
    (ord : List (List Char) → List (List Char)) (hord : ValidOrd ord)
    (ht : t.errors = [])
    (hm : List.lookup k (parseLines bl).kv = some mv)
    (ht2 : List.lookup k t.kv = some tv) :
    countPh lang k (auditTarget (parseLines bl) lang t ord).1 =
      (if (getPlaceholders mv : Multiset (List Char)) =
          (getPlaceholders tv : Multiset (List Char)) then 0 else 1) ∧
    (perKey (parseLines bl) t lang k).2 =
      (if (getPlaceholders mv : Multiset (List Char)) =
          (getPlaceholders tv : Multiset (List Char)) then 0 else 1) := by
  have hmem : k ∈ (keysOf (parseLines bl)).filter
      (fun k2 => (keysOf t).contains k2) := by
    apply List.mem_filter.mpr
    refine ⟨lookup_some_mem hm, ?_⟩
    exact List.elem_iff.mpr (lookup_some_mem ht2)
  have hnd : ((keysOf (parseLines bl)).filter
      (fun k2 => (keysOf t).contains k2)).Nodup :=
    (parse_kv_nodup bl).filter _
  have hcount : (ord ((keysOf (parseLines bl)).filter
      fun k2 => (keysOf t).contains k2)).count k = 1 := by
    rw [count_perm_eq k (hord _)]
    exact count_one_of_nodup_mem k _ hnd hmem
  have hperk : countPh lang k (perKey (parseLines bl) t lang k).1 =
      (if (getPlaceholders mv : Multiset (List Char)) =
          (getPlaceholders tv : Multiset (List Char)) then 0 else 1) := by
    rw [countPh_perKey, if_pos rfl, hm, ht2]
    simp only [Option.getD_some]
    by_cases hms : (getPlaceholders mv : Multiset (List Char)) =
        (getPlaceholders tv : Multiset (List Char))
    · rw [if_pos ((pysorted_eq_iff _ _).mpr hms), if_pos hms]
    · rw [if_neg (fun hh => hms ((pysorted_eq_iff _ _).mp hh)), if_neg hms]
  constructor
  · rw [countPh_auditTarget (parseLines bl) t lang ord ht k, hcount,
      one_mul, hperk]
  · unfold perKey phEventsOf phEvBody
    rw [hm, ht2]
    simp only [Option.getD_some]
    by_cases hms : (getPlaceholders mv : Multiset (List Char)) =
        (getPlaceholders tv : Multiset (List Char))
    · rw [if_pos ((pysorted_eq_iff _ _).mpr hms), if_pos hms]
    · rw [if_neg (fun hh => hms ((pysorted_eq_iff _ _).mp hh)), if_neg hms]

/-- Witness for C3: one concrete mismatching key and one concrete
matching key. -/
theorem claim_C3_witness :
    countPh "fr".data "Greeting".data
      (auditTarget (parseLines exBase) "fr".data
        (parseLines ["\"Greeting\" = \"Salut\";".data,
          "\"Farewell\" = \"Adieu\";".data]) ordId).1 = 1 := by
  have h := (claim_C3 exBase
    (parseLines ["\"Greeting\" = \"Salut\";".data,
      "\"Farewell\" = \"Adieu\";".data])
    "fr".data "Greeting".data "Hello %@".data "Salut".data ordId
    ordId_valid (by decide) (by decide) (by decide)).1
  rw [h]
  decide

/-- Claim C4: for a key common to the base file and an error-free target
file, exactly one untranslated-value warning is emitted for that key if
and only if: the base value is longer than 4 characters, not purely
numeric, byte-for-byte equal to the target value, the language tag is in
the token-script set, the value is not in the exemption list, and the
key contains neither `Copyright` nor `LICENSE`; otherwise (in particular
for any language outside the token-script set) no warning is emitted. -/
theorem claim_C4 (bl : List (List Char)) (t : LocFile)
    (lang k mv tv : List Char)
    (ord : List (List Char) → List (List Char)) (hord : ValidOrd ord)
    (ht : t.errors = [])
    (hm : List.lookup k (parseLines bl).kv = some mv)
    (ht2 : List.lookup k t.kv = some tv) :
    countUt lang k (auditTarget (parseLines bl) lang t ord).1 =
      if mv.length > 4 ∧ pyIsDigit mv = false ∧ mv = tv ∧
          cjkLangs.contains lang = true ∧ safeWords.contains mv = false ∧
          strContains k "Copyright".data = false ∧
          strContains k "LICENSE".data = false then 1 else 0 := by
  have hmem : k ∈ (keysOf (parseLines bl)).filter
      (fun k2 => (keysOf t).contains k2) := by
    apply List.mem_filter.mpr
    refine ⟨lookup_some_mem hm, ?_⟩
    exact List.elem_iff.mpr (lookup_some_mem ht2)
  have hnd : ((keysOf (parseLines bl)).filter
      (fun k2 => (keysOf t).contains k2)).Nodup :=
    (parse_kv_nodup bl).filter _
  have hcount : (ord ((keysOf (parseLines bl)).filter
      fun k2 => (keysOf t).contains k2)).count k = 1 := by
    rw [count_perm_eq k (hord _)]
    exact count_one_of_nodup_mem k _ hnd hmem
  rw [countUt_auditTarget (parseLines bl) t lang ord ht k, hcount, one_mul,
    countUt_perKey, if_pos rfl]
  unfold utEventsOf
  rw [hm, ht2]
  simp only [Option.getD_some]
  exact countUt_utBody_self lang k mv tv

/-- Witness for C4: a concrete Japanese target keeping a long Latin value
verbatim yields one warning. -/
theorem claim_C4_witness :
    countUt "ja".data "Farewell".data
      (auditTarget (parseLines exBase) "ja".data
        (parseLines ["\"Greeting\" = \"Hello %@\";".data,
          "\"Farewell\" = \"Bye\";".data]) ordId).1 = 0 ∧
    countUt "ja".data "Greeting".data
      (auditTarget (parseLines exBase) "ja".data
        (parseLines ["\"Greeting\" = \"Hello %@\";".data,
          "\"Farewell\" = \"Bye\";".data]) ordId).1 = 1 := by
  constructor
  · have h := claim_C4 exBase
      (parseLines ["\"Greeting\" = \"Hello %@\";".data,
        "\"Farewell\" = \"Bye\";".data])
      "ja".data "Farewell".data "Bye".data "Bye".data ordId
      ordId_valid (by decide) (by decide) (by decide)
    rw [h]
    decide
  · have h := claim_C4 exBase
      (parseLines ["\"Greeting\" = \"Hello %@\";".data,
        "\"Farewell\" = \"Bye\";".data])
      "ja".data "Greeting".data "Hello %@".data "Hello %@".data ordId
      ordId_valid (by decide) (by decide) (by decide)
    rw [h]
    decide

theorem lookup_append_ne {α : Type} (k k2 : List Char) (v : α)
    (m : List (List Char × α)) (h : k ≠ k2) :
    List.lookup k (m ++ [(k2, v)]) = List.lookup k m := by
  induction m with
  | nil => simp [List.lookup, beq_false_of_ne h]
  | cons a m ih =>
    cases a with
    | mk k3 w =>
      by_cases hk : k = k3
      · subst hk
        simp [List.lookup]
      · have e1 : List.lookup k (((k3, w) :: m) ++ [(k2, v)]) =
            List.lookup k (m ++ [(k2, v)]) := by
          simp [List.lookup, beq_false_of_ne hk]
        have e2 : List.lookup k ((k3, w) :: m) = List.lookup k m := by
          simp [List.lookup, beq_false_of_ne hk]
        rw [e1, e2, ih]

theorem lookup_append_self {α : Type} (k : List Char) (v : α)
    (m : List (List Char × α)) (h : List.lookup k m = none) :
    List.lookup k (m ++ [(k, v)]) = some v := by
  induction m with
  | nil => simp [List.lookup]
  | cons a m ih =>
    cases a with
    | mk k3 w =>
      by_cases hk : k = k3
      · subst hk
        have : List.lookup k ((k, w) :: m) = some w := by simp [List.lookup]
        rw [this] at h
        exact Option.noConfusion h
      · have e1 : List.lookup k (((k3, w) :: m) ++ [(k, v)]) =
            List.lookup k (m ++ [(k, v)]) := by
          simp [List.lookup, beq_false_of_ne hk]
        have e2 : List.lookup k ((k3, w) :: m) = List.lookup k m := by
          simp [List.lookup, beq_false_of_ne hk]
        rw [e2] at h
        rw [e1, ih h]

theorem step_nonentry (k : List Char) (st : LocFile) (n : Nat)
    (line : List Char) (h : lineEntry line = none) :
    (parseStep st n line).kv = st.kv ∧
    (parseStep st n line).lineMap = st.lineMap ∧
    (parseStep st n line).errors.filter (isDupFor k) =
      st.errors.filter (isDupFor k) := by
  unfold lineEntry at h
  by_cases h1 : line.all isPySpace
  · simp [parseStep, h1]
  · by_cases h2 : isComment (pyStrip line)
    · simp [parseStep, h2]
    · rw [if_neg (by simp [h1]), if_neg (by simp [h2])] at h
      by_cases h3 : (line.contains '"' && line.contains '=') = true
      · have h3m : ('"' ∈ line ∧ '=' ∈ line) := by simpa using h3
        refine ⟨?_, ?_, ?_⟩ <;>
          simp [parseStep, h1, h2, h, h3m, List.filter_append, isDupFor]
      · have h3m : ¬('"' ∈ line ∧ '=' ∈ line) := by simpa using h3
        refine ⟨?_, ?_, ?_⟩ <;> simp [parseStep, h1, h2, h, h3m]

theorem step_entry_other (k k2 v2 : List Char) (st : LocFile) (n : Nat)
    (line : List Char) (h : lineEntry line = some (k2, v2)) (hne : k2 ≠ k) :
    List.lookup k (parseStep st n line).kv = List.lookup k st.kv ∧
    List.lookup k (parseStep st n line).lineMap = List.lookup k st.lineMap ∧
    (parseStep st n line).errors.filter (isDupFor k) =
      st.errors.filter (isDupFor k) := by
  unfold lineEntry at h
  by_cases h1 : line.all isPySpace
  · rw [if_pos h1] at h
    exact absurd h (by simp)
  · by_cases h2 : isComment (pyStrip line)
    · rw [if_neg (by simp [h1]), if_pos h2] at h
      exact absurd h (by simp)
    · rw [if_neg (by simp [h1]), if_neg (by simp [h2])] at h
      cases hlk : List.lookup k2 st.kv with
      | some w =>
        refine ⟨?_, ?_, ?_⟩ <;>
          simp [parseStep, h1, h2, h, hlk, List.filter_append, isDupFor,
            beq_false_of_ne hne]
      | none =>
        have e1 : (parseStep st n line).kv = st.kv ++ [(k2, v2)] := by
          simp [parseStep, h1, h2, h, hlk]
        have e2 : (parseStep st n line).lineMap = st.lineMap ++ [(k2, n)] := by
          simp [parseStep, h1, h2, h, hlk]
        have e3 : (parseStep st n line).errors = st.errors := by
          simp [parseStep, h1, h2, h, hlk]
        rw [e1, e2, e3, lookup_append_ne k k2 v2 st.kv (fun hh => hne hh.symm),
          lookup_append_ne k k2 n st.lineMap (fun hh => hne hh.symm)]
        exact ⟨rfl, rfl, rfl⟩

theorem step_entry_present (k v2 w : List Char) (st : LocFile) (n : Nat)
    (line : List Char) (h : lineEntry line = some (k, v2))
    (hw : List.lookup k st.kv = some w) :
    (parseStep st n line).kv = st.kv ∧
    (parseStep st n line).lineMap = st.lineMap ∧
    (parseStep st n line).errors.filter (isDupFor k) =
      st.errors.filter (isDupFor k) ++ [ParseError.duplicateKey n k] := by
  unfold lineEntry at h
  by_cases h1 : line.all isPySpace
  · rw [if_pos h1] at h
    exact absurd h (by simp)
  · by_cases h2 : isComment (pyStrip line)
    · rw [if_neg (by simp [h1]), if_pos h2] at h
      exact absurd h (by simp)
    · rw [if_neg (by simp [h1]), if_neg (by simp [h2])] at h
      refine ⟨?_, ?_, ?_⟩ <;>
        simp [parseStep, h1, h2, h, hw, List.filter_append, isDupFor]

theorem step_entry_absent (k v2 : List Char) (st : LocFile) (n : Nat)
    (line : List Char) (h : lineEntry line = some (k, v2))
    (hw : List.lookup k st.kv = none) :
    (parseStep st n line).kv = st.kv ++ [(k, v2)] ∧
    (parseStep st n line).lineMap = st.lineMap ++ [(k, n)] ∧
    (parseStep st n line).errors.filter (isDupFor k) =
      st.errors.filter (isDupFor k) := by
  unfold lineEntry at h
  by_cases h1 : line.all isPySpace
  · rw [if_pos h1] at h
    exact absurd h (by simp)
  · by_cases h2 : isComment (pyStrip line)
    · rw [if_neg (by simp [h1]), if_pos h2] at h
      exact absurd h (by simp)
    · rw [if_neg (by simp [h1]), if_neg (by simp [h2])] at h
      refine ⟨?_, ?_, ?_⟩ <;> simp [parseStep, h1, h2, h, hw]

theorem entriesFor_cons_none (k : List Char) (n : Nat) (l : List Char)
    (ls : List (List Char)) (h : lineEntry l = none) :
    entriesFor k n (l :: ls) = entriesFor k (n + 1) ls := by
  simp only [entriesFor, h]

theorem entriesFor_cons_self (k v : List Char) (n : Nat) (l : List Char)
    (ls : List (List Char)) (h : lineEntry l = some (k, v)) :
    entriesFor k n (l :: ls) = (n, v) :: entriesFor k (n + 1) ls := by
  simp only [entriesFor, h, if_pos]

theorem entriesFor_cons_other (k k2 v : List Char) (n : Nat) (l : List Char)
    (ls : List (List Char)) (h : lineEntry l = some (k2, v)) (hne : k2 ≠ k) :
    entriesFor k n (l :: ls) = entriesFor k (n + 1) ls := by
  simp only [entriesFor, h]
  rw [if_neg hne]

theorem parseAux_dup_present (ls : List (List Char)) :
    ∀ (st : LocFile) (n : Nat) (k v0 : List Char) (m0 : Nat),
    List.lookup k st.kv = some v0 → List.lookup k st.lineMap = some m0 →
    List.lookup k (parseAux st n ls).kv = some v0 ∧
    List.lookup k (parseAux st n ls).lineMap = some m0 ∧
    (parseAux st n ls).errors.filter (isDupFor k) =
      st.errors.filter (isDupFor k) ++
        (entriesFor k n ls).map (fun p => ParseError.duplicateKey p.1 k) := by
  induction ls with
  | nil =>
    intro st n k v0 m0 hv hm
    simp only [parseAux, entriesFor]
    exact ⟨hv, hm, by simp⟩
  | cons l ls ih =>
    intro st n k v0 m0 hv hm
    simp only [parseAux]
    cases hle : lineEntry l with
    | none =>
      obtain ⟨e1, e2, e3⟩ := step_nonentry k st n l hle
      obtain ⟨r1, r2, r3⟩ := ih (parseStep st n l) (n + 1) k v0 m0
        (by rw [e1]; exact hv) (by rw [e2]; exact hm)
      refine ⟨r1, r2, ?_⟩
      rw [r3, e3]
      rw [entriesFor_cons_none k n l ls hle]
    | some kv2 =>
      cases kv2 with
      | mk k2 v2 =>
        by_cases hk2 : k2 = k
        · subst hk2
          obtain ⟨e1, e2, e3⟩ := step_entry_present k2 v2 v0 st n l hle hv
          obtain ⟨r1, r2, r3⟩ := ih (parseStep st n l) (n + 1) k2 v0 m0
            (by rw [e1]; exact hv) (by rw [e2]; exact hm)
          refine ⟨r1, r2, ?_⟩
          rw [r3, e3]
          rw [entriesFor_cons_self k2 v2 n l ls hle, List.map_cons,
            List.append_assoc]
          rfl
        · obtain ⟨e1, e2, e3⟩ := step_entry_other k k2 v2 st n l hle hk2
          obtain ⟨r1, r2, r3⟩ := ih (parseStep st n l) (n + 1) k v0 m0
            (by rw [e1]; exact hv) (by rw [e2]; exact hm)
          refine ⟨r1, r2, ?_⟩
          rw [r3, e3]
          rw [entriesFor_cons_other k k2 v2 n l ls hle hk2]

theorem parseAux_dup_absent (ls : List (List Char)) :
    ∀ (st : LocFile) (n : Nat) (k : List Char),
    List.lookup k st.kv = none → List.lookup k st.lineMap = none →
    (entriesFor k n ls = [] →
      List.lookup k (parseAux st n ls).kv = none ∧
      (parseAux st n ls).errors.filter (isDupFor k) =
        st.errors.filter (isDupFor k)) ∧
    (∀ m1 v1 rest, entriesFor k n ls = (m1, v1) :: rest →
      List.lookup k (parseAux st n ls).kv = some v1 ∧
      List.lookup k (parseAux st n ls).lineMap = some m1 ∧
      (parseAux st n ls).errors.filter (isDupFor k) =
        st.errors.filter (isDupFor k) ++
          rest.map (fun p => ParseError.duplicateKey p.1 k)) := by
  induction ls with
  | nil =>
    intro st n k hv hm
    simp only [parseAux]
    refine ⟨fun _ => ⟨hv, by simp⟩, fun m1 v1 rest hent => ?_⟩
    exact absurd hent (by simp [entriesFor])
  | cons l ls ih =>
    intro st n k hv hm
    simp only [parseAux]
    cases hle : lineEntry l with
    | none =>
      obtain ⟨e1, e2, e3⟩ := step_nonentry k st n l hle
      have hent : entriesFor k n (l :: ls) = entriesFor k (n + 1) ls :=
        entriesFor_cons_none k n l ls hle
      obtain ⟨ihe, ihc⟩ := ih (parseStep st n l) (n + 1) k
        (by rw [e1]; exact hv) (by rw [e2]; exact hm)
      constructor
      · intro hnil
        rw [hent] at hnil
        obtain ⟨r1, r2⟩ := ihe hnil
        exact ⟨r1, by rw [r2, e3]⟩
      · intro m1 v1 rest hc
        rw [hent] at hc
        obtain ⟨r1, r2, r3⟩ := ihc m1 v1 rest hc
        exact ⟨r1, r2, by rw [r3, e3]⟩
    | some kv2 =>
      cases kv2 with
      | mk k2 v2 =>
        by_cases hk2 : k2 = k
        · subst hk2
          obtain ⟨e1, e2, e3⟩ := step_entry_absent k2 v2 st n l hle hv
          have hlk : List.lookup k2 (parseStep st n l).kv = some v2 := by
            rw [e1]
            exact lookup_append_self k2 v2 st.kv hv
          have hlm : List.lookup k2 (parseStep st n l).lineMap = some n := by
            rw [e2]
            exact lookup_append_self k2 n st.lineMap hm
          have hent : entriesFor k2 n (l :: ls) =
              (n, v2) :: entriesFor k2 (n + 1) ls :=
            entriesFor_cons_self k2 v2 n l ls hle
          obtain ⟨r1, r2, r3⟩ := parseAux_dup_present ls (parseStep st n l)
            (n + 1) k2 v2 n hlk hlm
          constructor
          · intro hnil
            rw [hent] at hnil
            exact absurd hnil (by simp)
          · intro m1 v1 rest hc
            rw [hent] at hc
            obtain ⟨hm1, hrest⟩ : (n, v2) = (m1, v1) ∧
                entriesFor k2 (n + 1) ls = rest := by
              have := List.cons.injEq _ _ _ _ ▸ hc
              exact ⟨this.1, this.2⟩
            obtain ⟨hmm, hvv⟩ : n = m1 ∧ v2 = v1 := by
              have := Prod.mk.injEq _ _ _ _ ▸ hm1
              exact ⟨this.1, this.2⟩
            subst hmm
            subst hvv
            subst hrest
            exact ⟨r1, r2, by rw [r3, e3]⟩
        · obtain ⟨e1, e2, e3⟩ := step_entry_other k k2 v2 st n l hle hk2
          have hent : entriesFor k n (l :: ls) = entriesFor k (n + 1) ls :=
            entriesFor_cons_other k k2 v2 n l ls hle hk2
          obtain ⟨ihe, ihc⟩ := ih (parseStep st n l) (n + 1) k
            (by rw [e1]; exact hv) (by rw [e2]; exact hm)
          constructor
          · intro hnil
            rw [hent] at hnil
            obtain ⟨r1, r2⟩ := ihe hnil
            exact ⟨r1, by rw [r2, e3]⟩
          · intro m1 v1 rest hc
            rw [hent] at hc
            obtain ⟨r1, r2, r3⟩ := ihc m1 v1 rest hc
            exact ⟨r1, r2, by rw [r3, e3]⟩

/-- Claim C7: if a key occurs on more than one well-formed line of a
file, the mapping retains exactly the first occurrence's value and line
number, and every later occurrence appends one duplicate-key error
carrying that later line's number; the value is never overwritten. -/
theorem claim_C7 (lines : List (List Char)) (k v1 : List Char) (n1 : Nat)
    (rest : List (Nat × List Char))
    (h : entriesFor k 1 lines = (n1, v1) :: rest) :
    List.lookup k (parseLines lines).kv = some v1 ∧
    List.lookup k (parseLines lines).lineMap = some n1 ∧
    (parseLines lines).errors.filter (isDupFor k) =
      rest.map (fun p => ParseError.duplicateKey p.1 k) := by
  have hres := (parseAux_dup_absent lines ⟨[], [], []⟩ 1 k (by simp) (by simp)).2
    n1 v1 rest h
  exact ⟨hres.1, hres.2.1, by
    have := hres.2.2
    simpa using this⟩

/-- Witness for C7 at a file repeating key `A` on lines 1, 2 and 4. -/
theorem claim_C7_witness :
    List.lookup "A".data (parseLines ["\"A\" = \"first\";".data,
      "\"A\" = \"second\";".data, "\"B\" = \"x\";".data,
      "\"A\" = \"third\";".data]).kv = some "first".data ∧
    List.lookup "A".data (parseLines ["\"A\" = \"first\";".data,
      "\"A\" = \"second\";".data, "\"B\" = \"x\";".data,
      "\"A\" = \"third\";".data]).lineMap = some 1 ∧
    (parseLines ["\"A\" = \"first\";".data, "\"A\" = \"second\";".data,
      "\"B\" = \"x\";".data, "\"A\" = \"third\";".data]).errors.filter
        (isDupFor "A".data) =
      [ParseError.duplicateKey 2 "A".data,
       ParseError.duplicateKey 4 "A".data] := by
  have h := claim_C7 ["\"A\" = \"first\";".data, "\"A\" = \"second\";".data,
    "\"B\" = \"x\";".data, "\"A\" = \"third\";".data]
    "A".data "first".data 1 [(2, "second".data), (4, "third".data)]
    (by decide)
  exact ⟨h.1, h.2.1, by rw [h.2.2]; decide⟩

theorem countMissingEv_eq_countP (evs : List Ev) :
    countMissingEv evs =
      evs.countP fun e =>
        match e with
        | Ev.missingKey _ => true
        | _ => false :=
  (List.countP_eq_length_filter _ _).symm

theorem countPhEv_eq_countP (evs : List Ev) :
    countPhEv evs =
      evs.countP fun e =>
        match e with
        | Ev.phMismatch _ _ _ _ => true
        | _ => false :=
  (List.countP_eq_length_filter _ _).symm

theorem countParseErrEv_eq_countP (evs : List Ev) :
    countParseErrEv evs =
      evs.countP fun e =>
        match e with
        | Ev.parseErr _ _ => true
        | _ => false :=
  (List.countP_eq_length_filter _ _).symm

theorem countP_flatten_ev (p : Ev → Bool) (ls : List (List Ev)) :
    ls.flatten.countP p = (ls.map fun l => l.countP p).sum := by
  induction ls with
  | nil => simp
  | cons a ls ih => simp [List.countP_append, ih]

theorem countMissingEv_perKey (master t : LocFile) (lang k : List Char) :
    countMissingEv (perKey master t lang k).1 = 0 := by
  rw [countMissingEv_eq_countP]
  unfold perKey
  rw [List.countP_append]
  have h1 : ((phEventsOf master t lang k).1.countP fun e =>
      match e with
      | Ev.missingKey _ => true
      | _ => false) = 0 := by
    unfold phEventsOf phEvBody
    split <;> rfl
  have h2 : ((utEventsOf master t lang k).countP fun e =>
      match e with
      | Ev.missingKey _ => true
      | _ => false) = 0 := by
    unfold utEventsOf utEvBody
    split
    · split
      · split
        · split <;> rfl
        · rfl
      · rfl
    · rfl
  rw [h1, h2]

theorem countParseErrEv_perKey (master t : LocFile) (lang k : List Char) :
    countParseErrEv (perKey master t lang k).1 = 0 := by
  rw [countParseErrEv_eq_countP]
  unfold perKey
  rw [List.countP_append]
  have h1 : ((phEventsOf master t lang k).1.countP fun e =>
      match e with
      | Ev.parseErr _ _ => true
      | _ => false) = 0 := by
    unfold phEventsOf phEvBody
    split <;> rfl
  have h2 : ((utEventsOf master t lang k).countP fun e =>
      match e with
      | Ev.parseErr _ _ => true
      | _ => false) = 0 := by
    unfold utEventsOf utEvBody
    split
    · split
      · split
        · split <;> rfl
        · rfl
      · rfl
    · rfl
  rw [h1, h2]

theorem countPhEv_perKey (master t : LocFile) (lang k : List Char) :
    countPhEv (perKey master t lang k).1 = (perKey master t lang k).2 := by
  rw [countPhEv_eq_countP]
  unfold perKey
  rw [List.countP_append]
  have h2 : ((utEventsOf master t lang k).countP fun e =>
      match e with
      | Ev.phMismatch _ _ _ _ => true
      | _ => false) = 0 := by
    unfold utEventsOf utEvBody
    split
    · split
      · split
        · split <;> rfl
        · rfl
      · rfl
    · rfl
  rw [h2]
  unfold phEventsOf phEvBody
  split <;> rfl

theorem countMissingEv_append (l1 l2 : List Ev) :
    countMissingEv (l1 ++ l2) = countMissingEv l1 + countMissingEv l2 := by
  rw [countMissingEv_eq_countP, countMissingEv_eq_countP,
    countMissingEv_eq_countP, List.countP_append]

theorem countPhEv_append (l1 l2 : List Ev) :
    countPhEv (l1 ++ l2) = countPhEv l1 + countPhEv l2 := by
  rw [countPhEv_eq_countP, countPhEv_eq_countP, countPhEv_eq_countP,
    List.countP_append]

theorem countParseErrEv_append (l1 l2 : List Ev) :
    countParseErrEv (l1 ++ l2) =
      countParseErrEv l1 + countParseErrEv l2 := by
  rw [countParseErrEv_eq_countP, countParseErrEv_eq_countP,
    countParseErrEv_eq_countP, List.countP_append]

theorem countMissingEv_cons_proc (lang : List Char) (evs : List Ev) :
    countMissingEv (Ev.procHeader lang :: evs) = countMissingEv evs := by
  simp [countMissingEv]

theorem countPhEv_cons_proc (lang : List Char) (evs : List Ev) :
    countPhEv (Ev.procHeader lang :: evs) = countPhEv evs := by
  simp [countPhEv]

theorem countParseErrEv_cons_proc (lang : List Char) (evs : List Ev) :
    countParseErrEv (Ev.procHeader lang :: evs) = countParseErrEv evs := by
  simp [countParseErrEv]

theorem countMissingEv_missBlock (lang : List Char)
    (missing : List (List Char)) :
    countMissingEv (if missing.isEmpty then []
      else Ev.missingHdr lang missing.length ::
        (pysorted missing).map Ev.missingKey) = missing.length := by
  by_cases hb : missing.isEmpty
  · rw [if_pos hb, List.isEmpty_iff.mp hb]
    rfl
  · rw [if_neg hb, countMissingEv_eq_countP, List.countP_cons,
      List.countP_map]
    have hlen : ((pysorted missing).countP
        ((fun e => match e with
          | Ev.missingKey _ => true
          | _ => false) ∘ Ev.missingKey)) = (pysorted missing).length := by
      rw [show ((fun e => match e with
          | Ev.missingKey _ => true
          | _ => false) ∘ Ev.missingKey) = fun _ => true from rfl]
      exact congrFun List.countP_true (pysorted missing)
    rw [hlen]
    have hp : (pysorted missing).length = missing.length := by
      unfold pysorted
      exact (List.perm_insertionSort _ missing).length_eq
    rw [hp]
    simp

theorem countMissingEv_extraBlock (lang : List Char)
    (extras : List (List Char)) :
    countMissingEv (if extras.isEmpty then []
      else Ev.extraHdr lang extras.length ::
        (pysorted extras).map Ev.extraKey) = 0 := by
  by_cases hb : extras.isEmpty
  · rw [if_pos hb]
    rfl
  · rw [if_neg hb, countMissingEv_eq_countP, List.countP_cons,
      List.countP_map]
    rw [show ((fun e => match e with
        | Ev.missingKey _ => true
        | _ => false) ∘ Ev.extraKey) = fun _ => false from rfl]
    simp

theorem countPhEv_missBlock (lang : List Char) (missing : List (List Char)) :
    countPhEv (if missing.isEmpty then []
      else Ev.missingHdr lang missing.length ::
        (pysorted missing).map Ev.missingKey) = 0 := by
  by_cases hb : missing.isEmpty
  · rw [if_pos hb]
    rfl
  · rw [if_neg hb, countPhEv_eq_countP, List.countP_cons, List.countP_map]
    rw [show ((fun e => match e with
        | Ev.phMismatch _ _ _ _ => true
        | _ => false) ∘ Ev.missingKey) = fun _ => false from rfl]
    simp

theorem countPhEv_extraBlock (lang : List Char) (extras : List (List Char)) :
    countPhEv (if extras.isEmpty then []
      else Ev.extraHdr lang extras.length ::
        (pysorted extras).map Ev.extraKey) = 0 := by
  by_cases hb : extras.isEmpty
  · rw [if_pos hb]
    rfl
  · rw [if_neg hb, countPhEv_eq_countP, List.countP_cons, List.countP_map]
    rw [show ((fun e => match e with
        | Ev.phMismatch _ _ _ _ => true
        | _ => false) ∘ Ev.extraKey) = fun _ => false from rfl]
    simp

theorem countParseErrEv_missBlock (lang : List Char)
    (missing : List (List Char)) :
    countParseErrEv (if missing.isEmpty then []
      else Ev.missingHdr lang missing.length ::
        (pysorted missing).map Ev.missingKey) = 0 := by
  by_cases hb : missing.isEmpty
  · rw [if_pos hb]
    rfl
  · rw [if_neg hb, countParseErrEv_eq_countP, List.countP_cons,
      List.countP_map]
    rw [show ((fun e => match e with
        | Ev.parseErr _ _ => true
        | _ => false) ∘ Ev.missingKey) = fun _ => false from rfl]
    simp

theorem countParseErrEv_extraBlock (lang : List Char)
    (extras : List (List Char)) :
    countParseErrEv (if extras.isEmpty then []
      else Ev.extraHdr lang extras.length ::
        (pysorted extras).map Ev.extraKey) = 0 := by
  by_cases hb : extras.isEmpty
  · rw [if_pos hb]
    rfl
  · rw [if_neg hb, countParseErrEv_eq_countP, List.countP_cons,
      List.countP_map]
    rw [show ((fun e => match e with
        | Ev.parseErr _ _ => true
        | _ => false) ∘ Ev.extraKey) = fun _ => false from rfl]
    simp

theorem countMissingEv_keyEvs (master t : LocFile) (lang : List Char)
    (ks : List (List Char)) :
    countMissingEv ((ks.map fun k => (perKey master t lang k).1).flatten) =
      0 := by
  induction ks with
  | nil => rfl
  | cons a ks ih =>
    rw [List.map_cons, List.flatten_cons, countMissingEv_append, ih,
      countMissingEv_perKey]

theorem countParseErrEv_keyEvs (master t : LocFile) (lang : List Char)
    (ks : List (List Char)) :
    countParseErrEv ((ks.map fun k => (perKey master t lang k).1).flatten) =
      0 := by
  induction ks with
  | nil => rfl
  | cons a ks ih =>
    rw [List.map_cons, List.flatten_cons, countParseErrEv_append, ih,
      countParseErrEv_perKey]

theorem countPhEv_keyEvs (master t : LocFile) (lang : List Char)
    (ks : List (List Char)) :
    countPhEv ((ks.map fun k => (perKey master t lang k).1).flatten) =
      (ks.map fun k => (perKey master t lang k).2).sum := by
  induction ks with
  | nil => rfl
  | cons a ks ih =>
    rw [List.map_cons, List.flatten_cons, countPhEv_append, ih,
      countPhEv_perKey, List.map_cons, List.sum_cons]

theorem countMissingEv_errBlock (lang : List Char) (errs : List ParseError) :
    countMissingEv (Ev.procHeader lang :: errs.map (Ev.parseErr lang)) =
      0 := by
  rw [countMissingEv_cons_proc, countMissingEv_eq_countP, List.countP_map]
  rw [show ((fun e => match e with
      | Ev.missingKey _ => true
      | _ => false) ∘ Ev.parseErr lang) = fun _ => false from rfl]
  simp

theorem countPhEv_errBlock (lang : List Char) (errs : List ParseError) :
    countPhEv (Ev.procHeader lang :: errs.map (Ev.parseErr lang)) = 0 := by
  rw [countPhEv_cons_proc, countPhEv_eq_countP, List.countP_map]
  rw [show ((fun e => match e with
      | Ev.phMismatch _ _ _ _ => true
      | _ => false) ∘ Ev.parseErr lang) = fun _ => false from rfl]
  simp

theorem countParseErrEv_errBlock (lang : List Char)
    (errs : List ParseError) :
    countParseErrEv (Ev.procHeader lang :: errs.map (Ev.parseErr lang)) =
      errs.length := by
  rw [countParseErrEv_cons_proc, countParseErrEv_eq_countP, List.countP_map]
  rw [show ((fun e => match e with
      | Ev.parseErr _ _ => true
      | _ => false) ∘ Ev.parseErr lang) = fun _ => true from rfl]
  exact congrFun List.countP_true errs

theorem auditTarget_breakdown (master t : LocFile) (lang : List Char)
    (ord : List (List Char) → List (List Char)) :
    (auditTarget master lang t ord).2 =
      countMissingEv (auditTarget master lang t ord).1 +
      countPhEv (auditTarget master lang t ord).1 +
      countParseErrEv (auditTarget master lang t ord).1 := by
  unfold auditTarget
  split
  · simp only [List.map_map, Function.comp_def]
    rw [countMissingEv_append, countMissingEv_append,
      countMissingEv_cons_proc, countMissingEv_missBlock,
      countMissingEv_extraBlock, countMissingEv_keyEvs,
      countPhEv_append, countPhEv_append, countPhEv_cons_proc,
      countPhEv_missBlock, countPhEv_extraBlock, countPhEv_keyEvs,
      countParseErrEv_append, countParseErrEv_append,
      countParseErrEv_cons_proc, countParseErrEv_missBlock,
      countParseErrEv_extraBlock, countParseErrEv_keyEvs]
    omega
  · dsimp only
    rw [countMissingEv_errBlock, countPhEv_errBlock,
      countParseErrEv_errBlock]
    omega

theorem run_breakdown_list (master : LocFile)
    (ord : List (List Char) → List (List Char))
    (ts : List (List Char × Option (List (List Char)))) :
    (ts.map fun p => (auditTarget master p.1 (parseFile p.2) ord).2).sum =
      countMissingEv ((ts.map fun p =>
        (auditTarget master p.1 (parseFile p.2) ord).1).flatten) +
      countPhEv ((ts.map fun p =>
        (auditTarget master p.1 (parseFile p.2) ord).1).flatten) +
      countParseErrEv ((ts.map fun p =>
        (auditTarget master p.1 (parseFile p.2) ord).1).flatten) := by
  induction ts with
  | nil => rfl
  | cons a ts ih =>
    rw [List.map_cons, List.sum_cons, List.map_cons, List.flatten_cons,
      countMissingEv_append, countPhEv_append, countParseErrEv_append,
      auditTarget_breakdown, ih]
    omega

/-- Claim C2 (amended): in a completed run the global issue total equals
the number of missing-key lines plus the number of placeholder-mismatch
lines plus the number of reported target parse errors (duplicate keys,
malformed lines, and missing target files alike); extra keys and
untranslated-value warnings never contribute. -/
theorem claim_C2 (inp : AuditInput)
    (ord : List (List Char) → List (List Char)) (rep : List Ev) (n : Nat)
    (h : runAudit inp ord = Outcome.completed rep n) :
    n = countMissingEv rep + countPhEv rep + countParseErrEv rep := by
  cases hb : inp.base with
  | none =>
    rw [runAudit, hb] at h
    exact Outcome.noConfusion h
  | some bl =>
    by_cases he : (parseLines bl).errors = []
    · rw [runAudit_completed inp ord bl hb he] at h
      injection h with h1 h2
      subst h1
      subst h2
      exact run_breakdown_list (parseLines bl) ord (sortTargets inp.targets)
    · simp only [runAudit, hb] at h
      rw [if_neg (fun hh => he (List.isEmpty_iff.mp hh))] at h
      exact Outcome.noConfusion h

/-- Witness for the amended C2 at a concrete completed run. -/
theorem claim_C2_witness :
    (1 : Nat) =
      countMissingEv [Ev.procHeader "de".data,
        Ev.parseErr "de".data ParseError.fileNotFound] +
      countPhEv [Ev.procHeader "de".data,
        Ev.parseErr "de".data ParseError.fileNotFound] +
      countParseErrEv [Ev.procHeader "de".data,
        Ev.parseErr "de".data ParseError.fileNotFound] :=
  claim_C2 exC10inp ordId
    [Ev.procHeader "de".data, Ev.parseErr "de".data ParseError.fileNotFound]
    1 (by decide)

/-- Counterexample to C2 as stated: a run whose single counted issue is
a malformed line in a target file — not a missing key, not a placeholder
mismatch, and not a duplicate key — exits with failure and issue
total 1. -/
theorem claim_C2_counterexample :
    runAudit exC2inp ordId = Outcome.completed exC2rep 1 ∧
    exitCode (runAudit exC2inp ordId) = 1 ∧
    countMissingEv exC2rep = 0 ∧
    countPhEv exC2rep = 0 ∧
    (exC2rep.filter fun e =>
      match e with
      | Ev.parseErr _ (ParseError.duplicateKey _ _) => true
      | _ => false) = [] ∧
    countExtraEv exC2rep = 0 ∧
    countUntransEv exC2rep = 0 := by
  refine ⟨by decide, by decide, by decide, by decide, by decide,
    by decide, by decide⟩

theorem auditTarget_snd_ord (master t : LocFile) (lang : List Char)
    (ord1 ord2 : List (List Char) → List (List Char))
    (h1 : ValidOrd ord1) (h2 : ValidOrd ord2) :
    (auditTarget master lang t ord1).2 = (auditTarget master lang t ord2).2 := by
  by_cases hterr : t.errors.isEmpty
  · simp only [auditTarget, hterr, if_true]
    have hperm : ((ord1 ((keysOf master).filter fun k =>
        (keysOf t).contains k)).map fun k => (perKey master t lang k).2).Perm
        ((ord2 ((keysOf master).filter fun k =>
          (keysOf t).contains k)).map fun k => (perKey master t lang k).2) :=
      ((h1 _).trans (h2 _).symm).map _
    rw [List.map_map, List.map_map, Function.comp_def]
    rw [hperm.sum_eq]
  · simp [auditTarget, hterr]

theorem runAudit_issues_ord (inp : AuditInput)
    (ord1 ord2 : List (List Char) → List (List Char))
    (h1 : ValidOrd ord1) (h2 : ValidOrd ord2) :
    exitCode (runAudit inp ord1) = exitCode (runAudit inp ord2) ∧
    (∀ rep1 n1, runAudit inp ord1 = Outcome.completed rep1 n1 →
      ∃ rep2, runAudit inp ord2 = Outcome.completed rep2 n1) := by
  cases hb : inp.base with
  | none =>
    simp [runAudit, hb]
  | some bl =>
    by_cases he : (parseLines bl).errors = []
    · rw [runAudit_completed inp ord1 bl hb he,
        runAudit_completed inp ord2 bl hb he]
      have hsum : ((sortTargets inp.targets).map fun p =>
          (auditTarget (parseLines bl) p.1 (parseFile p.2) ord1).2).sum =
          ((sortTargets inp.targets).map fun p =>
            (auditTarget (parseLines bl) p.1 (parseFile p.2) ord2).2).sum := by
        have hfun : (fun p : List Char × Option (List (List Char)) =>
            (auditTarget (parseLines bl) p.1 (parseFile p.2) ord1).2) =
            (fun p => (auditTarget (parseLines bl) p.1 (parseFile p.2) ord2).2) :=
          funext fun p =>
            auditTarget_snd_ord (parseLines bl) (parseFile p.2) p.1
              ord1 ord2 h1 h2
        rw [hfun]
      constructor
      · simp [exitCode, hsum]
      · intro rep1 n1 hcomp
        injection hcomp with hr hn
        exact ⟨_, by rw [← hsum, hn]⟩
    · have hne : ¬((parseLines bl).errors.isEmpty = true) :=
        fun hh => he (List.isEmpty_iff.mp hh)
      constructor
      · simp only [runAudit, hb]
        rw [if_neg hne, if_neg hne]
      · intro rep1 n1 hcomp
        simp only [runAudit, hb] at hcomp
        rw [if_neg hne] at hcomp
        exact Outcome.noConfusion hcomp

/-- Claim C9 (amended): targets are processed in lexicographically sorted
order of their `.lproj` directory names (which differs from tag order
when one tag is a strict prefix of another), and the exit code and
global issue total do not depend on the common-key iteration order; the
order of per-key placeholder-mismatch and untranslated report lines
within one language, however, follows the unordered set iteration and is
not fixed by the file contents. -/
theorem claim_C9 (inp : AuditInput)
    (ord1 ord2 : List (List Char) → List (List Char))
    (h1 : ValidOrd ord1) (h2 : ValidOrd ord2) :
    List.Sorted (fun a b : List Char =>
      a ++ ".lproj".data ≤ b ++ ".lproj".data) (processedLangs inp) ∧
    exitCode (runAudit inp ord1) = exitCode (runAudit inp ord2) ∧
    (∀ rep1 n1, runAudit inp ord1 = Outcome.completed rep1 n1 →
      ∃ rep2, runAudit inp ord2 = Outcome.completed rep2 n1) := by
  refine ⟨?_, runAudit_issues_ord inp ord1 ord2 h1 h2⟩
  have hs : List.Sorted targetLe (sortTargets inp.targets) :=
    List.sorted_insertionSort targetLe inp.targets
  exact List.Pairwise.map Prod.fst (fun a b hab => hab) hs

/-- Witness for the amended C9 at a concrete input and two concrete valid
orders. -/
theorem claim_C9_witness :
    List.Sorted (fun a b : List Char =>
      a ++ ".lproj".data ≤ b ++ ".lproj".data) (processedLangs exC9inp) ∧
    exitCode (runAudit exC9inp ordId) = exitCode (runAudit exC9inp ordRev) := by
  have h := claim_C9 exC9inp ordId ordRev ordId_valid ordRev_valid
  exact ⟨h.1, h.2.1⟩

/-- Counterexample to C9 as stated: with two valid set-iteration orders
the reports differ (the two per-key mismatch lines swap), and with tags
`de` and `de-AT` the processing order follows directory names, which is
not the lexicographic order of the tags. -/
theorem claim_C9_counterexample :
    processedLangs exC9inp = ["de-AT".data, "de".data] ∧
    ("de".data : List Char) ≤ "de-AT".data ∧
    ("de".data : List Char) ≠ "de-AT".data ∧
    ValidOrd ordId ∧ ValidOrd ordRev ∧
    runAudit exC9inp ordId ≠ runAudit exC9inp ordRev := by
  refine ⟨by decide, by decide, by decide, ordId_valid, ordRev_valid,
    by decide⟩
